import Mathlib

/-!
Verification of the compilation pipeline of `src/builder.js` (blaz-cli).

The JavaScript source is shallowly embedded: JSON-object mappings become
ordered association lists (`List (String × _)`, modelling JavaScript object
insertion/iteration order), fallible code returns `Except JsError _`, and the
two external collaborators `get_ast` / `get_invariants` (required from
`./ast`, outside this core) are passed in as function parameters so that
theorems quantify over every possible collaborator behaviour.
-/

set_option autoImplicit false

/-- JavaScript runtime errors and thrown exceptions, as far as the embedded
code can raise or propagate them. `referenceError x` models evaluating an
identifier `x` that is not bound in any enclosing scope;
`typeError x` models setting a property on `undefined` (obtained by reading
the absent key `x`); `thrown msg` models an exception thrown by an external
collaborator. -/
inductive JsError where
  | referenceError : String → JsError
  | typeError : String → JsError
  | thrown : String → JsError
deriving DecidableEq, Repr

/-- One entry of `outputDocument.errors` (see spec §3 CompilerOutput). -/
structure Diag where
  severity : String
  formattedMessage : String
deriving DecidableEq, Repr

/-- The `evm` sub-object of a ContractInfo: the code reads
`evm.bytecode.object`, `evm.deployedBytecode.object` and
`evm.deployedBytecode.sourceMap` (builder.js lines 161, 180, 199). -/
structure Evm where
  bytecode_object : String
  deployedBytecode_object : String
  deployedBytecode_sourceMap : String
deriving DecidableEq, Repr

/-- ContractInfo (spec §3): `{ abi, evm: {bytecode: {object},
deployedBytecode: {object, sourceMap}} }`. The `abi` value (a JSON array in
the wire format) is kept as its serialized text. -/
structure ContractInfo where
  abi : String
  evm : Evm
deriving DecidableEq, Repr

/-- One entry of the raw `outputDocument.sources` mapping: `{id, ast}`.
The raw compiler output has no `source` key; builder.js line 140 assigns it,
so it is an `Option` that starts out `none`. -/
structure SourceOut where
  id : Int
  ast : String
  source : Option String
deriving DecidableEq, Repr

/-- One entry of the normalized `BuildResult.sources` projection
(builder.js lines 234-239): `{id, source}`. -/
structure MergedSource where
  id : Int
  source : Option String
deriving DecidableEq, Repr

/-- The value returned by the external AST collaborator `get_ast`
(builder.js line 145): a processed AST view and an AST-walk-friendly tree,
both kept opaque as strings. -/
structure AstResult where
  ast : String
  ast_tree : String
deriving DecidableEq, Repr

/-- First-match lookup in an ordered association list; models reading a
property of a JavaScript object (whose keys are unique, so first match is
the only match). -/
def alookup {α : Type} (k : String) : List (String × α) → Option α
  | [] => none
  | p :: t => if k = p.1 then some p.2 else alookup k t

/-- The shape of `settings.outputSelection`:
fileKey → contractKey → list of selector strings. -/
abbrev OutputSelection := List (String × List (String × List String))

/-- A value stored under a key of the `settings` object: either an
outputSelection-shaped value or an arbitrary caller-supplied value kept as
its serialized text (e.g. `remappings`). -/
inductive SVal where
  | sel : OutputSelection → SVal
  | raw : String → SVal
deriving DecidableEq, Repr

/-- The compiler `settings` object as an ordered association list. -/
abbrev Settings := List (String × SVal)

/-- One `push` onto the selector array stored under
`sel[fileKey][contractKey]` (builder.js lines 119-126). -/
def selPush (sel : OutputSelection) (fileKey cKey item : String) : OutputSelection :=
  sel.map (fun p =>
    if p.1 = fileKey then
      (p.1, p.2.map (fun q => if q.1 = cKey then (q.1, q.2 ++ [item]) else q))
    else p)

/-- The `outputSelection` value that `generate_settings` installs: the
skeleton `{'*': {'*': [], '': []}}` of line 113 followed by the eight
`push` calls of builder.js lines 119-126, in source order. -/
def builtSelection : OutputSelection :=
  selPush (selPush (selPush (selPush (selPush (selPush (selPush (selPush
    [("*", [("*", []), ("", [])])]
    "*" "*" "ast") "*" "*" "legacyAST") "*" "" "ast") "*" "" "legacyAST")
    "*" "*" "evm.deployedBytecode.sourceMap") "*" "*" "evm.bytecode")
    "*" "*" "evm.deployedBytecode") "*" "*" "abi"

/-- Assignment `obj[k] = v` on a JavaScript object modelled as an ordered
association list: an existing key keeps its position and gets the new
value; a new key is appended. -/
def setKey (s : Settings) (k : String) (v : SVal) : Settings :=
  if (alookup k s).isSome then s.map (fun p => if p.1 = k then (k, v) else p)
  else s ++ [(k, v)]

/-- builder.js lines 111-128, `generate_settings(original = {})`: mutates
the caller's settings object in place, overwriting `outputSelection`
entirely with `builtSelection` and leaving every other key untouched; an
absent settings object defaults to `[]` (the empty object `{}`). -/
def generate_settings (original : Settings) : Settings :=
  setKey original "outputSelection" (SVal.sel builtSelection)

/-- CompilerInput (spec §3): `{ language, sources: mapping(filePath →
{content}), settings }`. A source entry is kept as its `content` string. -/
structure CompilerInput where
  language : String
  sources : List (String × String)
  settings : Settings
deriving DecidableEq, Repr

/-- CompilerOutput (spec §3): `{ errors, contracts: mapping(filePath →
mapping(contractName → ContractInfo)), sources: mapping(filePath →
{id, ast}) }`. An absent `errors` key (the code reads
`output?.errors || []`) is the empty list. -/
structure CompilerOutput where
  errors : List Diag
  contracts : List (String × List (String × ContractInfo))
  sources : List (String × SourceOut)
deriving DecidableEq, Repr

/-- Escapes a string for JSON serialization (quote and backslash; control
characters do not occur in the inputs this development evaluates). -/
def escapeJson (s : String) : String :=
  String.join (s.toList.map (fun c =>
    if c = '\"' then "\\\"" else if c = '\\' then "\\\\" else String.singleton c))

/-- A JSON string literal. -/
def jstr (s : String) : String := "\"" ++ escapeJson s ++ "\""

/-- A JSON object from already-serialized field values, keys in insertion
order exactly as `JSON.stringify` emits them. -/
def jobj (fields : List (String × String)) : String :=
  "\x7b" ++ String.intercalate "," (fields.map (fun p => jstr p.1 ++ ":" ++ p.2)) ++ "\x7d"

/-- A JSON array from already-serialized elements. -/
def jarr (items : List String) : String :=
  "[" ++ String.intercalate "," items ++ "]"

/-- Serialization of an `outputSelection` value. -/
def stringifySelection (sel : OutputSelection) : String :=
  jobj (sel.map (fun f => (f.1, jobj (f.2.map (fun c => (c.1, jarr (c.2.map jstr)))))))

/-- Serialization of a settings value; a `raw` value carries its own
serialized text. -/
def stringifySVal : SVal → String
  | SVal.sel s => stringifySelection s
  | SVal.raw r => r

/-- Serialization of the settings object. -/
def stringifySettings (s : Settings) : String :=
  jobj (s.map (fun p => (p.1, stringifySVal p.2)))

/-- `JSON.stringify(compiler_json)` as evaluated at builder.js line 257:
keys in the insertion order of the CompilerInput structure. -/
def stringifyInput (c : CompilerInput) : String :=
  jobj [("language", jstr c.language),
        ("sources", jobj (c.sources.map (fun p => (p.1, jobj [("content", jstr p.2)])))),
        ("settings", stringifySettings c.settings)]

/-- An MD5 digest, modelled as an injective fingerprint of the exact byte
string fed to `crypto.createHash('md5').update(...)`. The digest is a pure
function of that string, and the spec's own CacheKey invariant ("distinct
inputs should not collide — cryptographic-strength digest required") places
collisions out of scope, so equality of digests is modelled as equality of
digest inputs. -/
structure Md5 where
  digestInput : String
deriving DecidableEq, Repr

/-- `crypto.createHash('md5').update(s).digest('hex')` (builder.js
line 257) under the injective-fingerprint model. -/
def md5hex (s : String) : Md5 := ⟨s⟩

/-- builder.js line 257: the cache key is the MD5 of
`JSON.stringify(compiler_json)` computed BEFORE line 259 reassigns
`compiler_json['settings']` to the augmented settings. -/
def cacheKeyOf (compiler_json : CompilerInput) : Md5 :=
  md5hex (stringifyInput compiler_json)

/-- A cache file path `.tmp/<stem>_<hash>.json`, kept symbolic as the stem
plus the digest it embeds. -/
structure CacheName where
  stem : String
  key : Md5
deriving DecidableEq, Repr

/-- builder.js line 258: `.tmp/compile_config_<hash>.json`. -/
def configFileOf (compiler_json : CompilerInput) : CacheName :=
  ⟨"compile_config", cacheKeyOf compiler_json⟩

/-- builder.js line 276: `.tmp/compile_output_<hash>.json`. -/
def outputFileOf (compiler_json : CompilerInput) : CacheName :=
  ⟨"compile_output", cacheKeyOf compiler_json⟩

/-- builder.js line 259: `compiler_json['settings'] =
generate_settings(compiler_json['settings'])`. -/
def augmentInput (compiler_json : CompilerInput) : CompilerInput :=
  { compiler_json with settings := generate_settings compiler_json.settings }

/-- builder.js lines 131-137: the first entry of `output.errors` whose
`severity` is exactly `"error"` (the `for` loop returns on the first such
entry; other severities are skipped). -/
def findErrorDiag : List Diag → Option Diag
  | [] => none
  | e :: rest => if e.severity = "error" then some e else findErrorDiag rest

/-- The assignment `output['sources'][fn]['source'] = content` of
builder.js line 140: every entry of the sources list whose key is `fn`
(there is exactly one for a JavaScript object) gets its `source` field
set. -/
def setSourceAll (sources : List (String × SourceOut)) (fn content : String) :
    List (String × SourceOut) :=
  sources.map (fun q => if q.1 = fn then (q.1, { q.2 with source := some content }) else q)

/-- builder.js lines 139-141: for every `[fn, contract]` of
`compiler_json['sources']`, assign
`output['sources'][fn]['source'] = contract['content']`. When `fn` is
absent from `output['sources']`, the property read yields `undefined` and
the assignment throws a TypeError. -/
def mergeSources : List (String × String) → List (String × SourceOut) →
    Except JsError (List (String × SourceOut))
  | [], sources => Except.ok sources
  | (fn, content) :: rest, sources =>
    if (alookup fn sources).isSome then mergeSources rest (setSourceAll sources fn content)
    else Except.error (JsError.typeError fn)

/-- The normalized artifact shape of a BuildResult field (spec §3): `null`,
a single scalar value (contract filter supplied), or the two-level
`filePath → contractName → value` mapping (no filter). -/
inductive Extracted where
  | nullE : Extracted
  | scalar : String → Extracted
  | matrix : List (String × List (String × String)) → Extracted
deriving DecidableEq, Repr

/-- The filtered extraction loop (builder.js lines 157-164 and its three
copies): start from `null`, scan every file and every contract in
iteration order, overwrite the accumulator on every contract whose name
equals the filter — so the last match wins. -/
def extractScalar (contracts : List (String × List (String × ContractInfo)))
    (contract_name : String) (f : ContractInfo → String) : Extracted :=
  contracts.foldl (fun acc fe =>
    fe.2.foldl (fun acc2 ce =>
      if ce.1 = contract_name then Extracted.scalar (f ce.2) else acc2) acc)
    Extracted.nullE

/-- The unfiltered extraction loop (builder.js lines 165-173 and its three
copies): the full two-level mapping over all files and contracts. -/
def extractMatrix (contracts : List (String × List (String × ContractInfo)))
    (f : ContractInfo → String) : Extracted :=
  Extracted.matrix (contracts.map (fun fe => (fe.1, fe.2.map (fun ce => (ce.1, f ce.2)))))

/-- The shared filter policy of the four extraction blocks: a JavaScript
`if (contract_name)` — the empty string is falsy, any other string is
truthy. -/
def extractField (contracts : List (String × List (String × ContractInfo)))
    (contract_name : String) (f : ContractInfo → String) : Extracted :=
  if contract_name = "" then extractMatrix contracts f
  else extractScalar contracts contract_name f

/-- The last entry of a (contractName, ContractInfo) list whose name
matches: later entries take precedence. Specification-side formulation of
"the last match in iteration order wins". -/
def lastIn : List (String × ContractInfo) → String → Option ContractInfo
  | [], _ => none
  | ce :: rest, name =>
    match lastIn rest name with
    | some ci => some ci
    | none => if ce.1 = name then some ce.2 else none

/-- All (contractName, ContractInfo) pairs of the output in iteration
order: files in order, contracts within each file in order. -/
def allContractPairs : List (String × List (String × ContractInfo)) →
    List (String × ContractInfo)
  | [] => []
  | fe :: rest => fe.2 ++ allContractPairs rest

/-- The last (file, contract) pair across all files whose contract name
matches, in iteration order. -/
def lastMatch (contracts : List (String × List (String × ContractInfo)))
    (name : String) : Option ContractInfo :=
  lastIn (allContractPairs contracts) name

/-- builder.js lines 148-153: `get_invariants` is awaited inside
`try/catch`; a thrown exception is logged and leaves `invariants = null`. -/
def tryGetInvariants (get_invariants : String → Except JsError String)
    (astRes : AstResult) : Option String :=
  match get_invariants astRes.ast_tree with
  | Except.ok inv => some inv
  | Except.error _ => none

/-- The provenance record attached at builder.js lines 241-245. -/
structure CompilerArgs where
  version : String
  compiler_json : CompilerInput
deriving DecidableEq, Repr

/-- BuildResult (builder.js line 247, spec §3). -/
structure BuildResult where
  ast : String
  sourcemap : Extracted
  sources : List (String × MergedSource)
  bytecode : Extracted
  runtime_bytecode : Extracted
  abi : Extracted
  invariants : Option String
  compiler_args : CompilerArgs
deriving DecidableEq, Repr

/-- The bundle assembled by the success path of `handleBuildResult`
(builder.js lines 155-247): the four extractions over
`output['contracts']`, the `sources` projection over the merged sources
(lines 234-239), and the provenance record. -/
def assembled (output : CompilerOutput) (compiler_version : String)
    (compiler_json : CompilerInput) (contract_name : String)
    (merged : List (String × SourceOut)) (astRes : AstResult)
    (invariants : Option String) : BuildResult :=
  { ast := astRes.ast,
    sourcemap := extractField output.contracts contract_name
      (fun ci => ci.evm.deployedBytecode_sourceMap),
    sources := merged.map (fun p => (p.1, MergedSource.mk p.2.id p.2.source)),
    bytecode := extractField output.contracts contract_name
      (fun ci => ci.evm.bytecode_object),
    runtime_bytecode := extractField output.contracts contract_name
      (fun ci => ci.evm.deployedBytecode_object),
    abi := extractField output.contracts contract_name (fun ci => ci.abi),
    invariants := invariants,
    compiler_args := { version := compiler_version, compiler_json := compiler_json } }

/-- builder.js lines 130-248, `handleBuildResult`, parameterized over the
external collaborators `get_ast` and `get_invariants`. On the first
diagnostic with severity `"error"` the code executes
`resolve({ success: false, err: err })` (line 134) — but `resolve` is not
bound in `handleBuildResult`'s scope (it only exists inside
`work_on_json`'s Promise executor) and `err` is not bound anywhere, so
evaluating the callee throws `ReferenceError: resolve is not defined`
after logging the formatted message; the embedding reflects this as
`JsError.referenceError "resolve"`. The source merge (lines 139-141) and
the unguarded `await get_ast(output)` (line 145) propagate their
exceptions; only `get_invariants` is guarded (lines 148-153). Timing logs
(`process.hrtime`, `console.*`) are pure observations and are elided. -/
def handleBuildResult (get_ast : CompilerOutput → Except JsError AstResult)
    (get_invariants : String → Except JsError String)
    (output : CompilerOutput) (compiler_version : String)
    (compiler_json : CompilerInput) (contract_name : String) :
    Except JsError BuildResult :=
  match findErrorDiag output.errors with
  | some _ => Except.error (JsError.referenceError "resolve")
  | none =>
    match mergeSources compiler_json.sources output.sources with
    | Except.error e => Except.error e
    | Except.ok merged =>
      match get_ast { output with sources := merged } with
      | Except.error e => Except.error e
      | Except.ok astRes =>
        Except.ok (assembled output compiler_version compiler_json contract_name
          merged astRes (tryGetInvariants get_invariants astRes))

/-- Whether an `Except` value is a success. -/
def exceptIsOk {α : Type} : Except JsError α → Bool
  | Except.ok _ => true
  | Except.error _ => false

/-- The file-system facts `work_on_json` consults for one invocation:
whether `.tmp`, the derived config file and the derived output file exist,
and the parsed content of the output file when it exists. -/
structure FsState where
  tmpExists : Bool
  configExists : Bool
  outputExists : Bool
  cachedOutput : CompilerOutput
deriving DecidableEq, Repr

/-- The externally observable effects of one `work_on_json` invocation.
`execCompiler b` is the subprocess invocation of builder.js lines 280-308
(`b = true`: `solc-select use … && solc --standard-json …`) or lines
310-338 (`b = false`: the `pip3 install solc-select` bootstrap variant
chosen when `checkSolcSelectInstalled()` is false). -/
inductive Event where
  | mkdirTmp : Event
  | writeConfig : CacheName → String → Event
  | execCompiler : Bool → Event
  | readOutput : CacheName → Event
deriving DecidableEq, Repr

/-- The object `{ success: true, remappings: …, ...result }` that
`work_on_json` resolves with (builder.js lines 302-306, 332-336,
344-348). -/
structure WorkSuccess where
  remappings : Option SVal
  result : BuildResult
deriving DecidableEq, Repr

/-- How a `work_on_json` invocation ends: `success` and `failure` are the
two `resolve(...)` shapes; `exception e` models `handleBuildResult`
rejecting, in which case the promise never resolves (the rejection of the
`async` executor/callback is unhandled). -/
inductive WorkResult where
  | success : WorkSuccess → WorkResult
  | failure : String → WorkResult
  | exception : JsError → WorkResult
deriving DecidableEq, Repr

/-- Whether a `WorkResult` is the successful resolution. -/
def workIsSuccess : WorkResult → Bool
  | WorkResult.success _ => true
  | _ => false

/-- builder.js lines 250-353, `work_on_json`, as the pair of its effect
trace and its outcome. Effects in source order: `mkdirSync('.tmp')` when
absent (253-255), the MD5 over the PRE-augmentation serialization (257),
the in-place augmentation (259), writing the (now augmented) input to the
config file when absent (261-263), then either the subprocess invocation
followed by reading and normalizing the produced output (278-339), or —
when the output cache file already exists — reading it and normalizing
directly (340-349). The `solc-select`/exec behaviour is abstracted into
`solcSelectInstalled` (which command variant runs) and `execResult` (the
subprocess outcome: captured stderr on failure, the parsed output document
on success); the version-number regex of lines 267-275 only affects the
command text and logs and is elided. -/
def work_on_json (get_ast : CompilerOutput → Except JsError AstResult)
    (get_invariants : String → Except JsError String)
    (solcSelectInstalled : Bool) (execResult : Except String CompilerOutput)
    (fs : FsState) (compiler_version : String) (compiler_json : CompilerInput)
    (contract_name : String) : List Event × WorkResult :=
  let ev0 : List Event := if fs.tmpExists then [] else [Event.mkdirTmp]
  let augmented := augmentInput compiler_json
  let ev1 : List Event := ev0 ++
    (if fs.configExists then []
     else [Event.writeConfig (configFileOf compiler_json) (stringifyInput augmented)])
  if fs.outputExists then
    (ev1 ++ [Event.readOutput (outputFileOf compiler_json)],
     match handleBuildResult get_ast get_invariants fs.cachedOutput compiler_version
        augmented contract_name with
     | Except.ok r =>
        WorkResult.success ⟨alookup "remappings" augmented.settings, r⟩
     | Except.error e => WorkResult.exception e)
  else
    match execResult with
    | Except.error stderr =>
      (ev1 ++ [Event.execCompiler solcSelectInstalled], WorkResult.failure stderr)
    | Except.ok output =>
      (ev1 ++ [Event.execCompiler solcSelectInstalled,
               Event.readOutput (outputFileOf compiler_json)],
       match handleBuildResult get_ast get_invariants output compiler_version
          augmented contract_name with
       | Except.ok r =>
          WorkResult.success ⟨alookup "remappings" augmented.settings, r⟩
       | Except.error e => WorkResult.exception e)

/-- A collaborator pair that always succeeds: `get_ast` producing a fixed
AST view and tree. -/
def gaOk : CompilerOutput → Except JsError AstResult :=
  fun _ => Except.ok ⟨"AST", "TREE"⟩

/-- A `get_ast` collaborator that throws. -/
def gaBoom : CompilerOutput → Except JsError AstResult :=
  fun _ => Except.error (JsError.thrown "ast boom")

/-- A `get_invariants` collaborator that succeeds. -/
def giOk : String → Except JsError String :=
  fun _ => Except.ok "INV"

/-- A `get_invariants` collaborator that throws. -/
def giBoom : String → Except JsError String :=
  fun _ => Except.error (JsError.thrown "inv boom")

/-- Concrete contract artifacts for the fixtures. -/
def ciFoo : ContractInfo := ⟨"[abiFoo]", ⟨"0xF00", "0xF00d", "smFoo"⟩⟩

/-- Second contract of `A.sol` in the filter fixture. -/
def ciBar : ContractInfo := ⟨"[abiBar]", ⟨"0xBa1", "0xBa1d", "smBar"⟩⟩

/-- The contract of `B.sol` in the filter fixture. -/
def ciBaz : ContractInfo := ⟨"[abiBaz]", ⟨"0xBa2", "0xBa2d", "smBaz"⟩⟩

/-- A one-file compiler input with empty settings. -/
def inpA : CompilerInput := ⟨"Solidity", [("A.sol", "contract Foo")], []⟩

/-- The same input as `inpA` except that the caller already supplies an
`outputSelection` key — which the Settings Augmenter overwrites entirely,
so the two inputs are identical after augmentation. -/
def inpWithSel : CompilerInput :=
  ⟨"Solidity", [("A.sol", "contract Foo")], [("outputSelection", SVal.sel [])]⟩

/-- A clean compiler output for `inpA`: no diagnostics, one contract. -/
def outW : CompilerOutput :=
  ⟨[], [("A.sol", [("Foo", ciFoo)])], [("A.sol", ⟨0, "rawAstA", none⟩)]⟩

/-- The same output with one severity-`error` diagnostic. -/
def errOut : CompilerOutput := { outW with errors := [⟨"error", "Boom"⟩] }

/-- The same output with one warning diagnostic only. -/
def warnOut : CompilerOutput := { outW with errors := [⟨"warning", "lint"⟩] }

/-- The two-file input for the filter-policy fixture of spec §8. -/
def inpF : CompilerInput := ⟨"Solidity", [("A.sol", "srcA"), ("B.sol", "srcB")], []⟩

/-- The filter-policy fixture of spec §8: contracts
`{A.sol: {Foo, Bar}, B.sol: {Baz}}`. -/
def outF : CompilerOutput :=
  ⟨[], [("A.sol", [("Foo", ciFoo), ("Bar", ciBar)]), ("B.sol", [("Baz", ciBaz)])],
   [("A.sol", ⟨0, "rA", none⟩), ("B.sol", ⟨1, "rB", none⟩)]⟩

/-- `outW.sources` after the source merge against `inpA`. -/
def mergedW : List (String × SourceOut) := [("A.sol", ⟨0, "rawAstA", some "contract Foo"⟩)]

/-- The AST result the always-succeeding collaborator returns. -/
def astW : AstResult := ⟨"AST", "TREE"⟩

/-- The BuildResult of normalizing `outW` against `inpA` with no filter
and both collaborators succeeding. -/
def rPrimeW : BuildResult :=
  { ast := "AST",
    sourcemap := Extracted.matrix [("A.sol", [("Foo", "smFoo")])],
    sources := [("A.sol", ⟨0, some "contract Foo"⟩)],
    bytecode := Extracted.matrix [("A.sol", [("Foo", "0xF00")])],
    runtime_bytecode := Extracted.matrix [("A.sol", [("Foo", "0xF00d")])],
    abi := Extracted.matrix [("A.sol", [("Foo", "[abiFoo]")])],
    invariants := some "INV",
    compiler_args := ⟨"v0.8.20", inpA⟩ }

/-- The BuildResult of normalizing `outF` against `inpF` with filter
`"Baz"` and both collaborators succeeding. -/
def rBazW : BuildResult :=
  { ast := "AST",
    sourcemap := Extracted.scalar "smBaz",
    sources := [("A.sol", ⟨0, some "srcA"⟩), ("B.sol", ⟨1, some "srcB"⟩)],
    bytecode := Extracted.scalar "0xBa2",
    runtime_bytecode := Extracted.scalar "0xBa2d",
    abi := Extracted.scalar "[abiBaz]",
    invariants := some "INV",
    compiler_args := ⟨"v0.8.20", inpF⟩ }

/-- A file-system state where the derived output cache file exists and
holds the clean output `outW`. -/
def fsHit : FsState := ⟨true, true, true, outW⟩

/-- A file-system state where the derived output cache file exists but the
cached output document contains a severity-`error` diagnostic. -/
def fsHitErr : FsState := ⟨true, true, true, errOut⟩

/-- Looking up the key just written by `setKey` yields the written value. -/
theorem setKey_alookup_self (s : Settings) (k : String) (v : SVal) :
    alookup k (setKey s k v) = some v := by
  unfold setKey
  by_cases h : (alookup k s).isSome
  · rw [if_pos h]
    induction s with
    | nil => simp [alookup] at h
    | cons p t ih =>
      by_cases hp : p.1 = k
      · simp [alookup, hp]
      · have hne : ¬ k = p.1 := fun hh => hp hh.symm
        simp only [alookup, if_neg hne, List.map_cons, if_neg hp] at h ⊢
        exact ih h
  · rw [if_neg h]
    have hnone : alookup k s = none := by
      cases hs : alookup k s with
      | none => rfl
      | some w => rw [hs] at h; simp at h
    clear h
    induction s with
    | nil => simp [alookup]
    | cons p t ih =>
      simp only [alookup] at hnone
      by_cases hk : k = p.1
      · rw [if_pos hk] at hnone; cases hnone
      · rw [if_neg hk] at hnone
        rw [List.cons_append, alookup, if_neg hk]
        exact ih hnone

/-- `setKey` leaves the lookup of every other key unchanged. -/
theorem setKey_alookup_ne (s : Settings) (k : String) (v : SVal) (x : String)
    (hx : x ≠ k) : alookup x (setKey s k v) = alookup x s := by
  unfold setKey
  by_cases h : (alookup k s).isSome
  · rw [if_pos h]
    clear h
    induction s with
    | nil => rfl
    | cons p t ih =>
      by_cases hp : p.1 = k
      · have hne : ¬ x = p.1 := fun hh => hx (hh.trans hp)
        simp only [List.map_cons, if_pos hp, alookup, if_neg hne]
        rw [if_neg (fun hh : x = k => hx hh)]
        exact ih
      · simp only [List.map_cons, if_neg hp, alookup]
        by_cases hxp : x = p.1
        · rw [if_pos hxp, if_pos hxp]
        · rw [if_neg hxp, if_neg hxp]
          exact ih
  · rw [if_neg h]
    clear h
    induction s with
    | nil => simp [alookup, if_neg hx]
    | cons p t ih =>
      rw [List.cons_append, alookup, alookup]
      by_cases hxp : x = p.1
      · rw [if_pos hxp, if_pos hxp]
      · rw [if_neg hxp, if_neg hxp]
        exact ih

/-- When a key is absent, no entry of the list carries it. -/
theorem alookup_eq_none_forall {α : Type} (k : String) (s : List (String × α))
    (h : alookup k s = none) : ∀ p ∈ s, p.1 ≠ k := by
  induction s with
  | nil => intro p hp; cases hp
  | cons q t ih =>
    intro p hp
    rw [alookup] at h
    by_cases hk : k = q.1
    · rw [if_pos hk] at h; cases h
    · rw [if_neg hk] at h
      cases hp with
      | head => exact fun hh => hk hh.symm
      | tail _ hmem => exact ih h p hmem

/-- Every entry of `setKey s k v` whose key is `k` is exactly `(k, v)`. -/
theorem setKey_mem_key_eq (s : Settings) (k : String) (v : SVal) :
    ∀ p ∈ setKey s k v, p.1 = k → p = (k, v) := by
  unfold setKey
  by_cases h : (alookup k s).isSome
  · rw [if_pos h]
    intro p hp hpk
    rcases List.mem_map.mp hp with ⟨q, hqmem, hqeq⟩
    by_cases hqk : q.1 = k
    · rw [if_pos hqk] at hqeq; exact hqeq.symm
    · rw [if_neg hqk] at hqeq
      subst hqeq
      exact absurd hpk hqk
  · rw [if_neg h]
    have hnone : alookup k s = none := by
      cases hs : alookup k s with
      | none => rfl
      | some w => rw [hs] at h; simp at h
    intro p hp hpk
    rcases List.mem_append.mp hp with hmem | hmem
    · exact absurd hpk (alookup_eq_none_forall k s hnone p hmem)
    · rcases List.mem_singleton.mp hmem with rfl; rfl

/-- Writing the same value twice with `setKey` is the same as writing it
once. -/
theorem setKey_idem (s : Settings) (k : String) (v : SVal) :
    setKey (setKey s k v) k v = setKey s k v := by
  have hsome : (alookup k (setKey s k v)).isSome := by
    rw [setKey_alookup_self]; rfl
  have key : ∀ p ∈ setKey s k v, (if p.1 = k then (k, v) else p) = p := by
    intro p hp
    by_cases hpk : p.1 = k
    · rw [if_pos hpk, setKey_mem_key_eq s k v p hp hpk]
    · rw [if_neg hpk]
  have main : ∀ (t : Settings), (alookup k t).isSome →
      (∀ p ∈ t, (if p.1 = k then (k, v) else p) = p) → setKey t k v = t := by
    intro t ht hkey
    unfold setKey
    rw [if_pos ht]
    calc t.map (fun p => if p.1 = k then (k, v) else p)
        = t.map id := List.map_congr_left hkey
      _ = t := List.map_id _
  exact main (setKey s k v) hsome key

/-- The eight `push` calls produce exactly these selector lists. -/
theorem builtSelection_eq :
    builtSelection =
      [("*", [("*", ["ast", "legacyAST", "evm.deployedBytecode.sourceMap",
                     "evm.bytecode", "evm.deployedBytecode", "abi"]),
              ("", ["ast", "legacyAST"])])] := by
  rfl

/-- C5: for every (possibly empty/partial) settings object,
`generate_settings` installs an `outputSelection` whose wildcard-file,
wildcard-contract selector list is exactly `ast`, `legacyAST`,
`evm.deployedBytecode.sourceMap`, `evm.bytecode`, `evm.deployedBytecode`,
`abi`, and whose wildcard-file, empty-contract selector list is exactly
`ast`, `legacyAST`; every caller-supplied key other than `outputSelection`
keeps exactly the value it had. -/
theorem c5_generate_settings_output_selection (s : Settings) :
    alookup "outputSelection" (generate_settings s) =
      some (SVal.sel
        [("*", [("*", ["ast", "legacyAST", "evm.deployedBytecode.sourceMap",
                       "evm.bytecode", "evm.deployedBytecode", "abi"]),
                ("", ["ast", "legacyAST"])])]) ∧
    ∀ k : String, k ≠ "outputSelection" →
      alookup k (generate_settings s) = alookup k s := by
  constructor
  · rw [generate_settings, setKey_alookup_self, builtSelection_eq]
  · intro k hk
    exact setKey_alookup_ne s "outputSelection" (SVal.sel builtSelection) k hk

/-- Witness for C5 at a concrete settings object carrying a `remappings`
key. -/
theorem c5_generate_settings_output_selection_witness :
    alookup "outputSelection" (generate_settings [("remappings", SVal.raw "[]")]) =
      some (SVal.sel
        [("*", [("*", ["ast", "legacyAST", "evm.deployedBytecode.sourceMap",
                       "evm.bytecode", "evm.deployedBytecode", "abi"]),
                ("", ["ast", "legacyAST"])])]) ∧
    alookup "remappings" (generate_settings [("remappings", SVal.raw "[]")]) =
      some (SVal.raw "[]") := by
  refine ⟨(c5_generate_settings_output_selection [("remappings", SVal.raw "[]")]).1, ?_⟩
  rw [(c5_generate_settings_output_selection [("remappings", SVal.raw "[]")]).2
    "remappings" (by decide)]
  rfl

/-- C6: the Settings Augmenter is idempotent — applying it twice gives the
very same settings object (in particular the same `outputSelection`) as
applying it once, and the installed selector lists are duplicate-free. -/
theorem c6_generate_settings_idempotent (s : Settings) :
    generate_settings (generate_settings s) = generate_settings s ∧
    alookup "outputSelection" (generate_settings s) = some (SVal.sel builtSelection) ∧
    builtSelection =
      [("*", [("*", ["ast", "legacyAST", "evm.deployedBytecode.sourceMap",
                     "evm.bytecode", "evm.deployedBytecode", "abi"]),
              ("", ["ast", "legacyAST"])])] ∧
    (["ast", "legacyAST", "evm.deployedBytecode.sourceMap",
      "evm.bytecode", "evm.deployedBytecode", "abi"] : List String).Nodup ∧
    (["ast", "legacyAST"] : List String).Nodup := by
  refine ⟨?_, ?_, builtSelection_eq, by decide, by decide⟩
  · rw [generate_settings, generate_settings]
    exact setKey_idem s "outputSelection" (SVal.sel builtSelection)
  · rw [generate_settings, setKey_alookup_self]

/-- The overwrite-on-match fold over one contract list computes the last
match, falling back to the accumulator. -/
theorem foldl_overwrite_lastIn (name : String) (f : ContractInfo → String) :
    ∀ (l : List (String × ContractInfo)) (acc : Extracted),
      l.foldl (fun a ce => if ce.1 = name then Extracted.scalar (f ce.2) else a) acc =
        ((lastIn l name).map (fun ci => Extracted.scalar (f ci))).getD acc := by
  intro l
  induction l with
  | nil => intro acc; rfl
  | cons x xs ih =>
    intro acc
    rw [List.foldl_cons, ih]
    rw [lastIn]
    cases h : lastIn xs name with
    | some ci => rfl
    | none =>
      by_cases hx : x.1 = name
      · rw [if_pos hx, if_pos hx]; rfl
      · rw [if_neg hx, if_neg hx]

/-- The nested per-file folds equal the fold over the flattened pair
list. -/
theorem nested_foldl_allContractPairs (name : String) (f : ContractInfo → String) :
    ∀ (cs : List (String × List (String × ContractInfo))) (acc : Extracted),
      cs.foldl (fun a fe =>
        fe.2.foldl (fun a2 ce => if ce.1 = name then Extracted.scalar (f ce.2) else a2) a)
        acc =
      (allContractPairs cs).foldl
        (fun a ce => if ce.1 = name then Extracted.scalar (f ce.2) else a) acc := by
  intro cs
  induction cs with
  | nil => intro acc; rfl
  | cons fe rest ih =>
    intro acc
    rw [List.foldl_cons, ih, allContractPairs, List.foldl_append]

/-- `lastIn` distributes over list append: the second list takes
precedence. -/
theorem lastIn_append (name : String) :
    ∀ (l1 l2 : List (String × ContractInfo)),
      lastIn (l1 ++ l2) name =
        match lastIn l2 name with
        | some ci => some ci
        | none => lastIn l1 name := by
  intro l1 l2
  induction l1 with
  | nil =>
    rw [List.nil_append]
    cases h : lastIn l2 name with
    | some ci => rfl
    | none => rfl
  | cons x xs ih =>
    rw [List.cons_append, lastIn, ih, lastIn]
    cases h : lastIn l2 name with
    | some ci => rfl
    | none => rfl

/-- The filtered extraction equals the last matching contract's value, or
`null` when no contract matches. -/
theorem extractScalar_eq_lastMatch (contracts : List (String × List (String × ContractInfo)))
    (name : String) (f : ContractInfo → String) :
    extractScalar contracts name f =
      ((lastMatch contracts name).map (fun ci => Extracted.scalar (f ci))).getD
        Extracted.nullE := by
  rw [extractScalar, nested_foldl_allContractPairs, lastMatch,
    foldl_overwrite_lastIn]

/-- Membership in the flattened contract-pair list. -/
theorem mem_allContractPairs (ce : String × ContractInfo) :
    ∀ (cs : List (String × List (String × ContractInfo))),
      ce ∈ allContractPairs cs ↔ ∃ fe ∈ cs, ce ∈ fe.2 := by
  intro cs
  induction cs with
  | nil => simp [allContractPairs]
  | cons fe rest ih =>
    simp only [allContractPairs, List.mem_append, ih, List.mem_cons]
    constructor
    · rintro (h | ⟨g, hg, hce⟩)
      · exact ⟨fe, Or.inl rfl, h⟩
      · exact ⟨g, Or.inr hg, hce⟩
    · rintro ⟨g, hg | hg, hce⟩
      · subst hg; exact Or.inl hce
      · exact Or.inr ⟨g, hg, hce⟩

/-- When no entry matches, `lastIn` finds nothing. -/
theorem lastIn_eq_none (name : String) :
    ∀ (l : List (String × ContractInfo)), (∀ ce ∈ l, ce.1 ≠ name) →
      lastIn l name = none := by
  intro l
  induction l with
  | nil => intro _; rfl
  | cons x xs ih =>
    intro h
    rw [lastIn, ih (fun ce hce => h ce (List.mem_cons_of_mem x hce))]
    rw [if_neg (h x (List.mem_cons_self x xs))]


theorem handleBuildResult_ok_of (get_ast : CompilerOutput → Except JsError AstResult)
    (get_invariants : String → Except JsError String) (output : CompilerOutput)
    (v : String) (cj : CompilerInput) (name : String)
    (m : List (String × SourceOut)) (astR : AstResult)
    (h1 : findErrorDiag output.errors = none)
    (h2 : mergeSources cj.sources output.sources = Except.ok m)
    (h3 : get_ast { output with sources := m } = Except.ok astR) :
    handleBuildResult get_ast get_invariants output v cj name =
      Except.ok (assembled output v cj name m astR
        (tryGetInvariants get_invariants astR)) := by
  unfold handleBuildResult
  simp only [h1, h2, h3]

/-- Error-scan short-circuit of `handleBuildResult`: a severity-`error`
diagnostic makes it throw the ReferenceError of builder.js line 134. -/
theorem handleBuildResult_error_diag (get_ast : CompilerOutput → Except JsError AstResult)
    (get_invariants : String → Except JsError String) (output : CompilerOutput)
    (v : String) (cj : CompilerInput) (name : String) (d : Diag)
    (h : findErrorDiag output.errors = some d) :
    handleBuildResult get_ast get_invariants output v cj name =
      Except.error (JsError.referenceError "resolve") := by
  unfold handleBuildResult
  simp only [h]

/-- AST-collaborator exceptions propagate out of `handleBuildResult`
unchanged. -/
theorem handleBuildResult_error_ast (get_ast : CompilerOutput → Except JsError AstResult)
    (get_invariants : String → Except JsError String) (output : CompilerOutput)
    (v : String) (cj : CompilerInput) (name : String)
    (m : List (String × SourceOut)) (e : JsError)
    (h1 : findErrorDiag output.errors = none)
    (h2 : mergeSources cj.sources output.sources = Except.ok m)
    (h3 : get_ast { output with sources := m } = Except.error e) :
    handleBuildResult get_ast get_invariants output v cj name = Except.error e := by
  unfold handleBuildResult
  simp only [h1, h2, h3]

/-- Inversion: a successful `handleBuildResult` can only arise from the
success path, and its value is the assembled bundle. -/
theorem handleBuildResult_ok_inversion (get_ast : CompilerOutput → Except JsError AstResult)
    (get_invariants : String → Except JsError String) (output : CompilerOutput)
    (v : String) (cj : CompilerInput) (name : String) (r : BuildResult)
    (h : handleBuildResult get_ast get_invariants output v cj name = Except.ok r) :
    ∃ m astR, findErrorDiag output.errors = none ∧
      mergeSources cj.sources output.sources = Except.ok m ∧
      get_ast { output with sources := m } = Except.ok astR ∧
      r = assembled output v cj name m astR (tryGetInvariants get_invariants astR) := by
  unfold handleBuildResult at h
  cases hfe : findErrorDiag output.errors with
  | some d => simp only [hfe] at h; exact Except.noConfusion h
  | none =>
    simp only [hfe] at h
    cases hm : mergeSources cj.sources output.sources with
    | error e => simp only [hm] at h; exact Except.noConfusion h
    | ok m =>
      simp only [hm] at h
      cases hga : get_ast { output with sources := m } with
      | error e => simp only [hga] at h; exact Except.noConfusion h
      | ok astR =>
        simp only [hga] at h
        exact ⟨m, astR, rfl, rfl, hga, (Except.ok.inj h).symm⟩

/-- Looking up the merged file after `setSourceAll` shows the updated
`source` field. -/
theorem setSourceAll_alookup_self (s : List (String × SourceOut)) (fn c : String) :
    alookup fn (setSourceAll s fn c) =
      (alookup fn s).map (fun so => { so with source := some c }) := by
  induction s with
  | nil => rfl
  | cons q t ih =>
    rw [setSourceAll, List.map_cons]
    by_cases hq : q.1 = fn
    · rw [if_pos hq, alookup, alookup, if_pos hq.symm, if_pos hq.symm]
      rfl
    · have hne : ¬ fn = q.1 := fun hh => hq hh.symm
      rw [if_neg hq, alookup, alookup, if_neg hne, if_neg hne]
      exact ih

/-- `setSourceAll` leaves every other file's entry unchanged. -/
theorem setSourceAll_alookup_ne (s : List (String × SourceOut)) (fn c : String)
    (x : String) (hx : x ≠ fn) :
    alookup x (setSourceAll s fn c) = alookup x s := by
  induction s with
  | nil => rfl
  | cons q t ih =>
    rw [setSourceAll, List.map_cons]
    by_cases hq : q.1 = fn
    · have hne : ¬ x = q.1 := fun hh => hx (hh.trans hq)
      rw [if_pos hq, alookup, alookup, if_neg hne, if_neg hne]
      exact ih
    · rw [if_neg hq, alookup, alookup]
      by_cases hxq : x = q.1
      · rw [if_pos hxq, if_pos hxq]
      · rw [if_neg hxq, if_neg hxq]
        exact ih

/-- Files the input does not mention keep their pre-merge entry. -/
theorem mergeSources_alookup_of_not_mem (fn : String) :
    ∀ (inputs : List (String × String)) (srcs m : List (String × SourceOut)),
      fn ∉ inputs.map Prod.fst → mergeSources inputs srcs = Except.ok m →
      alookup fn m = alookup fn srcs := by
  intro inputs
  induction inputs with
  | nil =>
    intro srcs m _ h
    rw [← Except.ok.inj h]
  | cons p rest ih =>
    intro srcs m hmem hmerge
    have hfn : fn ≠ p.1 ∧ fn ∉ rest.map Prod.fst := by
      rw [List.map_cons, List.mem_cons] at hmem
      exact ⟨fun hh => hmem (Or.inl hh), fun hh => hmem (Or.inr hh)⟩
    rw [mergeSources] at hmerge
    by_cases hks : (alookup p.1 srcs).isSome
    · rw [if_pos hks] at hmerge
      rw [ih (setSourceAll srcs p.1 p.2) m hfn.2 hmerge]
      exact setSourceAll_alookup_ne srcs p.1 p.2 fn hfn.1
    · rw [if_neg hks] at hmerge
      exact Except.noConfusion hmerge

/-- After a successful merge, each input file's entry carries the input's
content as its `source` and keeps its compiler-assigned fields. -/
theorem mergeSources_alookup_nodup (fn : String) :
    ∀ (inputs : List (String × String)) (srcs m : List (String × SourceOut))
      (c : String) (so : SourceOut),
      (inputs.map Prod.fst).Nodup → alookup fn inputs = some c →
      alookup fn srcs = some so → mergeSources inputs srcs = Except.ok m →
      alookup fn m = some { so with source := some c } := by
  intro inputs
  induction inputs with
  | nil =>
    intro srcs m c so _ hin _ _
    exact Option.noConfusion hin
  | cons p rest ih =>
    intro srcs m c so hnd hin hsrc hmerge
    rw [List.map_cons, List.nodup_cons] at hnd
    rw [alookup] at hin
    rw [mergeSources] at hmerge
    by_cases hfk : fn = p.1
    · rw [if_pos hfk] at hin
      have hc : c = p.2 := (Option.some.inj hin).symm
      have hks : (alookup p.1 srcs).isSome := by
        rw [← hfk, hsrc]; rfl
      rw [if_pos hks] at hmerge
      have hnotmem : fn ∉ rest.map Prod.fst := by
        rw [hfk]; exact hnd.1
      rw [mergeSources_alookup_of_not_mem fn rest (setSourceAll srcs p.1 p.2) m
        hnotmem hmerge]
      rw [← hfk, setSourceAll_alookup_self, hsrc, hc]
      rfl
    · rw [if_neg hfk] at hin
      by_cases hks : (alookup p.1 srcs).isSome
      · rw [if_pos hks] at hmerge
        have hsrc2 : alookup fn (setSourceAll srcs p.1 p.2) = some so := by
          rw [setSourceAll_alookup_ne srcs p.1 p.2 fn hfk]
          exact hsrc
        exact ih (setSourceAll srcs p.1 p.2) m c so hnd.2 hin hsrc2 hmerge
      · rw [if_neg hks] at hmerge
        exact Except.noConfusion hmerge

/-- Lookup commutes with a value-only map over an association list. -/
theorem alookup_map_val {α β : Type} (k : String) (g : α → β) :
    ∀ (l : List (String × α)),
      alookup k (l.map (fun p => (p.1, g p.2))) = (alookup k l).map g := by
  intro l
  induction l with
  | nil => rfl
  | cons p t ih =>
    rw [List.map_cons, alookup, alookup]
    by_cases hk : k = p.1
    · rw [if_pos hk, if_pos hk]
      rfl
    · rw [if_neg hk, if_neg hk]
      exact ih

/-- C1: evaluation of the code at the failing input. An output document
whose `errors` list holds one severity-`error` entry makes
`handleBuildResult` throw `ReferenceError: resolve is not defined`
(builder.js line 134 evaluates `resolve({ success: false, err: err })`
with neither `resolve` nor `err` in scope), so normalization does fail
before any artifact extraction, but the error payload is the
ReferenceError, not the formatted diagnostic text (which is only written
to the console log); a warning-only output still normalizes
successfully. -/
theorem c1_diagnostic_error_raises_reference_error :
    handleBuildResult gaOk giOk errOut "v0.8.20" inpA "" =
      Except.error (JsError.referenceError "resolve") ∧
    exceptIsOk (handleBuildResult gaOk giOk warnOut "v0.8.20" inpA "") = true :=
  ⟨rfl, rfl⟩

/-- C3 counterexample: a throwing `get_ast` collaborator on an otherwise
clean output makes the build fail — the exception propagates and no
BuildResult (in particular no AST field) is produced, contradicting the
claim that such failures are not fatal. -/
theorem c3_get_ast_failure_fatal_cex :
    handleBuildResult gaBoom giOk outW "v0.8.20" inpA "" =
      Except.error (JsError.thrown "ast boom") ∧
    exceptIsOk (handleBuildResult gaBoom giOk outW "v0.8.20" inpA "") = false :=
  ⟨rfl, rfl⟩

/-- C3 (amended): the `await get_ast(output)` of builder.js line 145 is
NOT guarded by any try/catch, so when the AST-analysis collaborator throws
during normalization the exception propagates out of `handleBuildResult`
unchanged: the build fails, no BuildResult is returned and invariant
extraction never runs; only `get_invariants` failures are non-fatal. -/
theorem c3_get_ast_failure_propagates (get_ast : CompilerOutput → Except JsError AstResult)
    (get_invariants : String → Except JsError String) (output : CompilerOutput)
    (v : String) (cj : CompilerInput) (name : String)
    (m : List (String × SourceOut)) (e : JsError)
    (h1 : findErrorDiag output.errors = none)
    (h2 : mergeSources cj.sources output.sources = Except.ok m)
    (h3 : get_ast { output with sources := m } = Except.error e) :
    handleBuildResult get_ast get_invariants output v cj name = Except.error e :=
  handleBuildResult_error_ast get_ast get_invariants output v cj name m e h1 h2 h3

/-- Witness for C3 (amended) at the concrete fixture. -/
theorem c3_get_ast_failure_propagates_witness :
    handleBuildResult gaBoom giBoom outW "v0.8.20" inpA "" =
      Except.error (JsError.thrown "ast boom") :=
  c3_get_ast_failure_propagates gaBoom giBoom outW "v0.8.20" inpA "" mergedW
    (JsError.thrown "ast boom") rfl rfl rfl

/-- C4: when AST analysis succeeds but the invariant-extraction
collaborator throws, the exception is caught (builder.js lines 148-153):
the build still succeeds and the BuildResult is exactly the one of the
non-throwing run except that its `invariants` field is null. -/
theorem c4_invariant_failure_degrades_gracefully
    (get_ast : CompilerOutput → Except JsError AstResult)
    (gi gi2 : String → Except JsError String) (output : CompilerOutput)
    (v : String) (cj : CompilerInput) (name : String)
    (m : List (String × SourceOut)) (astR : AstResult) (e : JsError) (inv : String)
    (r2 : BuildResult)
    (h1 : findErrorDiag output.errors = none)
    (h2 : mergeSources cj.sources output.sources = Except.ok m)
    (h3 : get_ast { output with sources := m } = Except.ok astR)
    (h4 : gi astR.ast_tree = Except.error e)
    (h5 : gi2 astR.ast_tree = Except.ok inv)
    (h6 : handleBuildResult get_ast gi2 output v cj name = Except.ok r2) :
    handleBuildResult get_ast gi output v cj name =
      Except.ok { r2 with invariants := none } := by
  have hthis := handleBuildResult_ok_of get_ast gi output v cj name m astR h1 h2 h3
  have hother := handleBuildResult_ok_of get_ast gi2 output v cj name m astR h1 h2 h3
  have hr2 : r2 = assembled output v cj name m astR (tryGetInvariants gi2 astR) :=
    Except.ok.inj (h6.symm.trans hother)
  have h4n : tryGetInvariants gi astR = none := by
    rw [tryGetInvariants, h4]
  rw [hthis, h4n, hr2]
  rfl

/-- Witness for C4 at the concrete fixture: the throwing-invariants run
returns the non-throwing run's bundle with a null `invariants` field. -/
theorem c4_invariant_failure_degrades_gracefully_witness :
    handleBuildResult gaOk giBoom outW "v0.8.20" inpA "" =
      Except.ok { rPrimeW with invariants := none } :=
  c4_invariant_failure_degrades_gracefully gaOk giBoom giOk outW "v0.8.20" inpA ""
    mergedW astW (JsError.thrown "inv boom") "INV" rPrimeW rfl rfl rfl rfl rfl rfl

/-- C7: every successful normalization extracts bytecode, runtime
bytecode, ABI and source map under one filter policy — a non-empty
filter yields the scalar value of the last (file, contract) pair in
iteration order whose contract name matches, and no filter yields the full
two-level filePath → contractName → value mapping. -/
theorem c7_extraction_filter_policy (get_ast : CompilerOutput → Except JsError AstResult)
    (get_invariants : String → Except JsError String) (output : CompilerOutput)
    (v : String) (cj : CompilerInput) (name : String) (r : BuildResult)
    (h : handleBuildResult get_ast get_invariants output v cj name = Except.ok r) :
    (name ≠ "" → ∀ ci, lastMatch output.contracts name = some ci →
      r.sourcemap = Extracted.scalar ci.evm.deployedBytecode_sourceMap ∧
      r.bytecode = Extracted.scalar ci.evm.bytecode_object ∧
      r.runtime_bytecode = Extracted.scalar ci.evm.deployedBytecode_object ∧
      r.abi = Extracted.scalar ci.abi) ∧
    (name = "" →
      r.sourcemap = Extracted.matrix (output.contracts.map (fun fe =>
        (fe.1, fe.2.map (fun ce => (ce.1, ce.2.evm.deployedBytecode_sourceMap))))) ∧
      r.bytecode = Extracted.matrix (output.contracts.map (fun fe =>
        (fe.1, fe.2.map (fun ce => (ce.1, ce.2.evm.bytecode_object))))) ∧
      r.runtime_bytecode = Extracted.matrix (output.contracts.map (fun fe =>
        (fe.1, fe.2.map (fun ce => (ce.1, ce.2.evm.deployedBytecode_object))))) ∧
      r.abi = Extracted.matrix (output.contracts.map (fun fe =>
        (fe.1, fe.2.map (fun ce => (ce.1, ce.2.abi)))))) := by
  rcases handleBuildResult_ok_inversion get_ast get_invariants output v cj name r h
    with ⟨m, astR, _, _, _, hr⟩
  subst hr
  constructor
  · intro hne ci hlast
    have hext : ∀ f : ContractInfo → String,
        extractField output.contracts name f = Extracted.scalar (f ci) := by
      intro f
      rw [extractField, if_neg hne, extractScalar_eq_lastMatch, hlast]
      rfl
    exact ⟨hext _, hext _, hext _, hext _⟩
  · intro he
    subst he
    have hext : ∀ f : ContractInfo → String,
        extractField output.contracts "" f = Extracted.matrix
          (output.contracts.map (fun fe => (fe.1, fe.2.map (fun ce => (ce.1, f ce.2))))) := by
      intro f
      rw [extractField, if_pos rfl]
      rfl
    exact ⟨hext (fun ci => ci.evm.deployedBytecode_sourceMap),
      hext (fun ci => ci.evm.bytecode_object),
      hext (fun ci => ci.evm.deployedBytecode_object),
      hext (fun ci => ci.abi)⟩

/-- Witness for C7 on the spec §8 fixture `{A.sol: {Foo, Bar},
B.sol: {Baz}}` with filter `"Baz"`: all four fields are the scalar values
of `B.sol`'s `Baz` entry. -/
theorem c7_extraction_filter_policy_witness :
    lastMatch outF.contracts "Baz" = some ciBaz ∧
    rBazW.sourcemap = Extracted.scalar ciBaz.evm.deployedBytecode_sourceMap ∧
    rBazW.bytecode = Extracted.scalar ciBaz.evm.bytecode_object ∧
    rBazW.runtime_bytecode = Extracted.scalar ciBaz.evm.deployedBytecode_object ∧
    rBazW.abi = Extracted.scalar ciBaz.abi := by
  have h := c7_extraction_filter_policy gaOk giOk outF "v0.8.20" inpF "Baz" rBazW rfl
  exact ⟨rfl, h.1 (by decide) ciBaz rfl⟩

/-- C9: every successful normalization carries, for each file of the
original input, that file's original `content` as `sources[file].source`
together with the compiler-assigned `sources[file].id`. -/
theorem c9_source_merge_preserves_input_content
    (get_ast : CompilerOutput → Except JsError AstResult)
    (get_invariants : String → Except JsError String) (output : CompilerOutput)
    (v : String) (cj : CompilerInput) (name : String) (r : BuildResult)
    (fn content : String) (so : SourceOut)
    (hnd : (cj.sources.map Prod.fst).Nodup)
    (h : handleBuildResult get_ast get_invariants output v cj name = Except.ok r)
    (hin : alookup fn cj.sources = some content)
    (hout : alookup fn output.sources = some so) :
    alookup fn r.sources = some ⟨so.id, some content⟩ := by
  rcases handleBuildResult_ok_inversion get_ast get_invariants output v cj name r h
    with ⟨m, astR, _, hm, _, hr⟩
  subst hr
  have hmerge := mergeSources_alookup_nodup fn cj.sources output.sources m content so
    hnd hin hout hm
  show alookup fn (m.map (fun p => (p.1, MergedSource.mk p.2.id p.2.source))) = _
  rw [alookup_map_val fn (fun q => MergedSource.mk q.id q.source) m, hmerge]
  rfl

/-- Witness for C9 at the concrete fixture: the normalized entry for
`A.sol` holds the original input text, not the compiler's. -/
theorem c9_source_merge_preserves_input_content_witness :
    alookup "A.sol" rPrimeW.sources = some ⟨(0 : Int), some "contract Foo"⟩ :=
  c9_source_merge_preserves_input_content gaOk giOk outW "v0.8.20" inpA "" rPrimeW
    "A.sol" "contract Foo" ⟨0, "rawAstA", none⟩ (by decide) rfl rfl rfl

/-- C10: a non-empty filter that matches no contract in any file still
yields a successful BuildResult, with `sourcemap`, `bytecode`,
`runtime_bytecode` and `abi` all null rather than an error being
raised. -/
theorem c10_unmatched_filter_yields_null_fields
    (get_ast : CompilerOutput → Except JsError AstResult)
    (get_invariants : String → Except JsError String) (output : CompilerOutput)
    (v : String) (cj : CompilerInput) (name : String)
    (m : List (String × SourceOut)) (astR : AstResult)
    (hname : name ≠ "")
    (hnomatch : ∀ fe ∈ output.contracts, ∀ ce ∈ fe.2, ce.1 ≠ name)
    (h1 : findErrorDiag output.errors = none)
    (h2 : mergeSources cj.sources output.sources = Except.ok m)
    (h3 : get_ast { output with sources := m } = Except.ok astR) :
    handleBuildResult get_ast get_invariants output v cj name =
      Except.ok (assembled output v cj name m astR
        (tryGetInvariants get_invariants astR)) ∧
    (assembled output v cj name m astR
      (tryGetInvariants get_invariants astR)).sourcemap = Extracted.nullE ∧
    (assembled output v cj name m astR
      (tryGetInvariants get_invariants astR)).bytecode = Extracted.nullE ∧
    (assembled output v cj name m astR
      (tryGetInvariants get_invariants astR)).runtime_bytecode = Extracted.nullE ∧
    (assembled output v cj name m astR
      (tryGetInvariants get_invariants astR)).abi = Extracted.nullE := by
  have hok := handleBuildResult_ok_of get_ast get_invariants output v cj name m astR
    h1 h2 h3
  have hlast : lastMatch output.contracts name = none := by
    rw [lastMatch]
    apply lastIn_eq_none
    intro ce hce
    rcases (mem_allContractPairs ce output.contracts).mp hce with ⟨fe, hfe, hcefe⟩
    exact hnomatch fe hfe ce hcefe
  have hnull : ∀ f : ContractInfo → String,
      extractField output.contracts name f = Extracted.nullE := by
    intro f
    rw [extractField, if_neg hname, extractScalar_eq_lastMatch, hlast]
    rfl
  exact ⟨hok, hnull _, hnull _, hnull _, hnull _⟩

/-- Witness for C10 at the concrete fixture: filtering `outW` for the
absent contract name `Nope` still succeeds, with all four fields null. -/
theorem c10_unmatched_filter_yields_null_fields_witness :
    handleBuildResult gaOk giOk outW "v0.8.20" inpA "Nope" =
      Except.ok (assembled outW "v0.8.20" inpA "Nope" mergedW astW
        (tryGetInvariants giOk astW)) ∧
    (assembled outW "v0.8.20" inpA "Nope" mergedW astW
      (tryGetInvariants giOk astW)).sourcemap = Extracted.nullE ∧
    (assembled outW "v0.8.20" inpA "Nope" mergedW astW
      (tryGetInvariants giOk astW)).bytecode = Extracted.nullE ∧
    (assembled outW "v0.8.20" inpA "Nope" mergedW astW
      (tryGetInvariants giOk astW)).runtime_bytecode = Extracted.nullE ∧
    (assembled outW "v0.8.20" inpA "Nope" mergedW astW
      (tryGetInvariants giOk astW)).abi = Extracted.nullE :=
  c10_unmatched_filter_yields_null_fields gaOk giOk outW "v0.8.20" inpA "Nope"
    mergedW astW (by decide) (by decide) rfl rfl rfl

/-- C2 counterexample: two inputs that become identical once the Settings
Augmenter has run — they differ only in a caller-supplied
`outputSelection`, which augmentation overwrites entirely — nevertheless
get different cache keys and different cache file paths, because
builder.js line 257 hashes `JSON.stringify(compiler_json)` before line 259
augments the settings. -/
theorem c2_hash_taken_before_augmentation_cex :
    augmentInput inpA = augmentInput inpWithSel ∧
    cacheKeyOf inpA ≠ cacheKeyOf inpWithSel ∧
    configFileOf inpA ≠ configFileOf inpWithSel ∧
    outputFileOf inpA ≠ outputFileOf inpWithSel :=
  ⟨by decide, by decide, by decide, by decide⟩

/-- C2 (amended): the cache key digest is computed over the input document
as supplied, BEFORE the Settings Augmenter inserts the mandatory
`outputSelection`; hence two inputs with the same pre-augmentation
serialization map to the same cache key and the same pair of cache file
paths (while inputs that only become identical after augmentation need
not). -/
theorem c2_cache_key_deterministic_preaugmentation (a b : CompilerInput)
    (h : stringifyInput a = stringifyInput b) :
    cacheKeyOf a = cacheKeyOf b ∧ configFileOf a = configFileOf b ∧
    outputFileOf a = outputFileOf b := by
  have hk : cacheKeyOf a = cacheKeyOf b := by
    rw [cacheKeyOf, cacheKeyOf, h]
  exact ⟨hk, by rw [configFileOf, configFileOf, hk], by rw [outputFileOf, outputFileOf, hk]⟩

/-- Witness for C2 (amended) at a concrete input. -/
theorem c2_cache_key_deterministic_preaugmentation_witness :
    cacheKeyOf inpA = cacheKeyOf ⟨"Solidity", [("A.sol", "contract Foo")], []⟩ ∧
    configFileOf inpA = configFileOf ⟨"Solidity", [("A.sol", "contract Foo")], []⟩ ∧
    outputFileOf inpA = outputFileOf ⟨"Solidity", [("A.sol", "contract Foo")], []⟩ :=
  c2_cache_key_deterministic_preaugmentation inpA
    ⟨"Solidity", [("A.sol", "contract Foo")], []⟩ rfl

/-- On a cache hit, `work_on_json` performs exactly the bookkeeping
effects plus one read of the output cache file, and its outcome is
whatever normalizing the cached output yields. -/
theorem work_on_json_hit_eq (get_ast : CompilerOutput → Except JsError AstResult)
    (get_invariants : String → Except JsError String) (inst : Bool)
    (execR : Except String CompilerOutput) (fs : FsState) (v : String)
    (cj : CompilerInput) (name : String) (h : fs.outputExists = true) :
    work_on_json get_ast get_invariants inst execR fs v cj name =
      ((if fs.tmpExists then [] else [Event.mkdirTmp]) ++
       (if fs.configExists then []
        else [Event.writeConfig (configFileOf cj) (stringifyInput (augmentInput cj))]) ++
       [Event.readOutput (outputFileOf cj)],
       match handleBuildResult get_ast get_invariants fs.cachedOutput v
          (augmentInput cj) name with
       | Except.ok r => WorkResult.success ⟨alookup "remappings" (augmentInput cj).settings, r⟩
       | Except.error e => WorkResult.exception e) := by
  unfold work_on_json
  rw [h]
  rfl

/-- C8 (amended): whenever the derived output cache file already exists,
the pipeline never invokes the compiler subprocess (neither the plain nor
the bootstrap `solc-select`/`solc` command), reads the cached output
document, and proceeds directly to normalization — resolving successfully
exactly when `handleBuildResult` returns normally. -/
theorem c8_cache_hit_skips_compiler (get_ast : CompilerOutput → Except JsError AstResult)
    (get_invariants : String → Except JsError String) (inst : Bool)
    (execR : Except String CompilerOutput) (fs : FsState) (v : String)
    (cj : CompilerInput) (name : String) (h : fs.outputExists = true) :
    (∀ b, Event.execCompiler b ∉
      (work_on_json get_ast get_invariants inst execR fs v cj name).1) ∧
    Event.readOutput (outputFileOf cj) ∈
      (work_on_json get_ast get_invariants inst execR fs v cj name).1 ∧
    (work_on_json get_ast get_invariants inst execR fs v cj name).2 =
      (match handleBuildResult get_ast get_invariants fs.cachedOutput v
          (augmentInput cj) name with
       | Except.ok r => WorkResult.success ⟨alookup "remappings" (augmentInput cj).settings, r⟩
       | Except.error e => WorkResult.exception e) := by
  have heq := work_on_json_hit_eq get_ast get_invariants inst execR fs v cj name h
  refine ⟨?_, ?_, ?_⟩
  · intro b
    rw [heq]
    by_cases h1 : fs.tmpExists <;> by_cases h2 : fs.configExists <;> simp [h1, h2]
  · rw [heq]
    by_cases h1 : fs.tmpExists <;> by_cases h2 : fs.configExists <;> simp [h1, h2]
  · rw [heq]

/-- Witness for C8 (amended) at the concrete cache-hit fixture. -/
theorem c8_cache_hit_skips_compiler_witness :
    Event.execCompiler true ∉
      (work_on_json gaOk giOk true (Except.ok outW) fsHit "v0.8.20" inpA "").1 ∧
    Event.execCompiler false ∉
      (work_on_json gaOk giOk true (Except.ok outW) fsHit "v0.8.20" inpA "").1 ∧
    Event.readOutput (outputFileOf inpA) ∈
      (work_on_json gaOk giOk true (Except.ok outW) fsHit "v0.8.20" inpA "").1 ∧
    (work_on_json gaOk giOk true (Except.ok outW) fsHit "v0.8.20" inpA "").2 =
      WorkResult.success ⟨none, { rPrimeW with compiler_args := ⟨"v0.8.20", augmentInput inpA⟩ }⟩ := by
  have h := c8_cache_hit_skips_compiler gaOk giOk true (Except.ok outW) fsHit
    "v0.8.20" inpA "" rfl
  refine ⟨h.1 true, h.1 false, h.2.1, ?_⟩
  rw [h.2.2]
  rfl

/-- C8 counterexample: a cache hit whose cached output document carries a
severity-`error` diagnostic does NOT resolve to a successful result — the
normalization throws (the ReferenceError of builder.js line 134) and the
promise never resolves — refuting the claim's "returning a successful
result" for every cache-hit request (the compiler subprocess is still
never invoked). -/
theorem c8_cache_hit_not_always_success_cex :
    fsHitErr.outputExists = true ∧
    (work_on_json gaOk giOk true (Except.ok outW) fsHitErr "v0.8.20" inpA "").2 =
      WorkResult.exception (JsError.referenceError "resolve") ∧
    workIsSuccess
      (work_on_json gaOk giOk true (Except.ok outW) fsHitErr "v0.8.20" inpA "").2 = false :=
  ⟨rfl, rfl, rfl⟩
